import Mathlib

/-!
Verification of the distributed scenario-tree worker and SPSolver layer of
this repository, as a shallow embedding in Lean 4.

Embedded sources:
* `pyomo/pysp/solvers/spsolver.py` — `SPSolver.solve`, `SPSolverFactory`,
  `_register_solver`, `SPSolverResults`.
* `pyomo/pysp/scenariotree/manager_worker_pyro.py` —
  `ScenarioTreeManagerWorkerPyro._init`, `_close_impl`,
  `invoke_function`, `invoke_method`.

Python exceptions are modelled with an explicit error type `PyErr`;
fallible code returns `Except PyErr _`.  Python dictionaries are modelled
as association lists with first-match lookup and in-place overwrite on
assignment.  Mutable attribute state is passed explicitly.
-/

namespace Spec2Proof

/-- The Python exception classes raised on the embedded code paths. -/
inductive PyErr where
  | assertionError
  | valueError (msg : String)
  | typeError (msg : String)
  | unboundLocalError (name : String)
  | keyError (key : String)
  | attributeError (name : String)
  | indexError
  deriving DecidableEq, Repr

/-- Python `dict` lookup (first matching key). -/
def dictLookup {α : Type} : List (String × α) → String → Option α
  | [], _ => none
  | (k, v) :: rest, key => if k = key then some v else dictLookup rest key

/-- Python `dict` assignment `d[k] = v`: overwrite the existing entry for
`k` if present, else append a new entry. -/
def dictSet {α : Type} : List (String × α) → String → α → List (String × α)
  | [], k, v => [(k, v)]
  | (k', v') :: rest, k, v =>
    if k' = k then (k, v) :: rest else (k', v') :: dictSet rest k v

theorem dictLookup_dictSet_self {α : Type} (l : List (String × α)) (k : String) (v : α) :
    dictLookup (dictSet l k v) k = some v := by
  induction l with
  | nil => simp [dictSet, dictLookup]
  | cons p rest ih =>
    obtain ⟨k', v'⟩ := p
    by_cases h : k' = k
    · simp [dictSet, h, dictLookup]
    · simp [dictSet, h, dictLookup, ih]

/-! ## `spsolver.py`: options, results, reference-model write-back -/

/-- `pyutilib.misc.Options` (the solver's persistent option set), modelled
as a dictionary from option names to values. -/
abbrev SolverOptions (V : Type) := List (String × V)

/-- The merged option set built by `SPSolver.solve` when per-call
`options` are supplied (lines 80-85): a fresh `Options` object populated
first from `orig_options.items()`, then from `tmp_options.items()`, so the
per-call overrides are layered on top of the persistent configuration. -/
def overlayOptions {V : Type} (orig tmp : SolverOptions V) : SolverOptions V :=
  tmp.foldl (fun acc p => dictSet acc p.1 p.2)
    (orig.foldl (fun acc p => dictSet acc p.1 p.2) [])

/-- The `undefined` sentinel from `pyomo.opt`, used to initialize every
field of `SPSolverResults` so that "unset" is distinguishable from any
computed value. -/
inductive SPVal (α : Type) where
  | undefined
  | val (v : α)
  deriving DecidableEq, Repr

/-- A component of the reference model that a `ComponentUID` can resolve
to: either a genuine variable (with a value and a staleness flag) or a
derived expression object. -/
structure Component (V : Type) where
  isExpression : Bool
  value : Option V
  stale : Bool
  deriving DecidableEq, Repr

/-- The reference model, as a mapping from component-identifier strings
(the `ComponentUID` representation) to components. -/
abbrev RefModel (V : Type) := List (String × Component V)

/-- `ComponentUID(id_).find_component(reference_model)` (line 144): resolve
an identifier string on the reference model. -/
def findComponent {V : Type} : RefModel V → String → Option (Component V)
  | [], _ => none
  | (k, c) :: rest, id_ => if k = id_ then some c else findComponent rest id_

/-- `var.value = tree_obj_solution[id_]; var.stale = False` (lines
147-148): write a solution value onto the component stored under `id_`. -/
def setComponentValue {V : Type} : RefModel V → String → V → RefModel V
  | [], _, _ => []
  | (k, c) :: rest, id_, v =>
    if k = id_ then
      (k, { c with value := some v, stale := false })
        :: setComponentValue rest id_ v
    else (k, c) :: setComponentValue rest id_ v

/-- The solution mapping `results.xhat`: per tree-object name, a mapping
from variable identifiers to values. -/
abbrev Xhat (V : Type) := List (String × List (String × V))

/-- `SPSolverResults` (lines 41-48), together with the attributes that
`SPSolver.solve` adds dynamically (`pysp_time`, and the solver-specific
`xhat`; `xhat = none` models the attribute being absent or deleted). -/
structure SPSolverResults (V : Type) where
  objective : SPVal V := SPVal.undefined
  bound : SPVal V := SPVal.undefined
  solver_name : SPVal (Option String) := SPVal.undefined
  solver_time : SPVal V := SPVal.undefined
  solver_status : SPVal V := SPVal.undefined
  pysp_time : Option Nat := none
  xhat : Option (Xhat V) := none
  deriving DecidableEq, Repr

/-- The inner loop of the reference-model write-back (lines 143-148): for
each identifier in one tree object's solution, resolve it on the reference
model; a failed resolution returns `None`, on which the subsequent
`.is_expression()` attribute access raises; identifiers resolving to
expression components are skipped, all others receive the value and are
marked not stale. -/
def loadTreeObjSolution {V : Type} (m : RefModel V) :
    List (String × V) → Except PyErr (RefModel V)
  | [] => Except.ok m
  | (id_, v) :: rest =>
    match findComponent m id_ with
    | none => Except.error (PyErr.attributeError "is_expression")
    | some c =>
      if c.isExpression then loadTreeObjSolution m rest
      else loadTreeObjSolution (setComponentValue m id_ v) rest

/-- The outer loop of the reference-model write-back (lines 141-148): walk
every tree object named in `xhat` and load its per-variable solution. -/
def loadXhat {V : Type} (m : RefModel V) : Xhat V → Except PyErr (RefModel V)
  | [] => Except.ok m
  | (_, sol) :: rest =>
    match loadTreeObjSolution m sol with
    | Except.error e => Except.error e
    | Except.ok m2 => loadXhat m2 rest

/-- Lines 132-134 of `solve`: stamp the elapsed wall time and the
solver's identity onto the results object returned by `_solve_impl`. -/
def stampResults {V : Type} (name : Option String) (elapsed : Nat)
    (r : SPSolverResults V) : SPSolverResults V :=
  { r with pysp_time := some elapsed, solver_name := SPVal.val name }

/-- The option set in effect during the delegated `_solve_impl` call:
the persistent options when no per-call override is given, otherwise the
merged copy built on lines 80-85. -/
def effectiveOptions {V : Type} (opts : SolverOptions V) :
    Option (SolverOptions V) → SolverOptions V
  | none => opts
  | some tmp => overlayOptions opts tmp

/-- `SPSolver.solve` (lines 73-152).  `name` is `self.name`; `opts` is the
persistent `self._solver_options`; `tmpOptions` is the popped per-call
`options` keyword; `referenceModel` is the popped `reference_model`
keyword; `solveImpl` embeds `self._solve_impl(sp, *args, **kwds)` as a
function of the option set in effect during the call; `elapsed` is the
measured wall time.  The returned pair is (call outcome, the persistent
option set observed after the call).  The `try`/`finally` of the source
restores `self._solver_options = orig_options` on both the normal and the
raising path before the reference-model block runs, so every exit carries
the original `opts`. -/
def SPSolver.solve {V : Type} (name : Option String) (opts : SolverOptions V)
    (tmpOptions : Option (SolverOptions V)) (referenceModel : Option (RefModel V))
    (elapsed : Nat)
    (solveImpl : SolverOptions V → Except PyErr (SPSolverResults V)) :
    Except PyErr (SPSolverResults V × Option (RefModel V)) × SolverOptions V :=
  match solveImpl (effectiveOptions opts tmpOptions) with
  | Except.error e => (Except.error e, opts)
  | Except.ok results0 =>
    match referenceModel with
    | none =>
      (Except.ok (stampResults name elapsed results0, none), opts)
    | some m =>
      match results0.xhat with
      | none => (Except.error (PyErr.attributeError "xhat"), opts)
      | some xh =>
        match loadXhat m xh with
        | Except.error e => (Except.error e, opts)
        | Except.ok m2 =>
          (Except.ok ({ stampResults name elapsed results0 with xhat := none },
            some m2), opts)

/-! ## `spsolver.py`: the solver registry -/

/-- A solver implementation type as seen by the registry: an identity tag
plus whether it is derived from `SPSolver`. -/
structure SolverType where
  tag : Nat
  isSPSolverSubclass : Bool
  deriving DecidableEq, Repr

/-- The process-wide `SPSolverFactory._registered_solvers` dictionary. -/
abbrev SolverRegistry := List (String × SolverType)

/-- `_register_solver` (lines 170-175): reject types not derived from
`SPSolver`, then assign `SPSolverFactory._registered_solvers[name] = type_`
unconditionally. -/
def registerSolver (reg : SolverRegistry) (name : String) (t : SolverType) :
    Except PyErr SolverRegistry :=
  if t.isSPSolverSubclass then Except.ok (dictSet reg name t)
  else Except.error (PyErr.typeError "Can not register SP solver type")

/-- `SPSolverFactory` (lines 157-167): instantiate a registered solver
type, or raise for an unknown name. -/
def spSolverFactoryLookup (reg : SolverRegistry) (name : String) :
    Except PyErr SolverType :=
  match dictLookup reg name with
  | some t => Except.ok t
  | none =>
    Except.error (PyErr.valueError
      "No SPSolver object has been registered with name")

/-! ## `manager_worker_pyro.py`: remote invocation dispatch -/

/-- `InvocationType` from `pyomo.pysp.scenariotree.manager`: the tag that
selects how a function is applied across the worker's owned objects.  The
worker code under study only ever compares against `Single`; the
data-carrying variants keep their payload. -/
inductive InvocationType where
  | Single
  | PerScenario
  | PerScenarioChained
  | PerBundle
  | PerBundleChained
  | OnScenario (name : String)
  | OnBundle (name : String)
  deriving DecidableEq, Repr

/-- A Python value as it flows through the invocation wrappers: the raw
helper result, the single-entry dictionary `{worker_name: result}`, or the
`AsyncResult` handle. -/
inductive PyVal where
  | pyNone
  | raw (n : Nat)
  | dict1 (key : String) (inner : PyVal)
  | asyncResult (inner : PyVal)
  deriving DecidableEq, Repr

/-- The `function` argument of `invoke_function`: either the name of a
function (a string, requiring `module_name`) or a pre-serialized function
object (anything that is not a string). -/
inductive FunctionArg where
  | byName (s : String)
  | serialized (blob : Nat)
  deriving DecidableEq, Repr

/-- The observable outcome of one of the invocation wrappers: whether the
underlying invocation helper (the user-supplied code) was executed, and
the value returned or exception raised. -/
structure InvokeOutcome where
  implCalled : Bool
  result : Except PyErr PyVal
  deriving Repr

/-- Reading the Python local variable `result`: if the local was never
assigned, the read raises `UnboundLocalError`. -/
def readLocalResult : Option PyVal → Except PyErr PyVal
  | none => Except.error (PyErr.unboundLocalError "result")
  | some v => Except.ok v

/-- `ScenarioTreeManagerWorkerPyro.invoke_function` (lines 330-370).
`implResult` is the value produced by `self._invoke_function_impl(...)`;
the source calls that helper as a bare statement (line 358) and never
binds its return value, so the local `result` consulted by lines 364-370
is still unbound. -/
def invoke_function (workerName : String) (function : FunctionArg)
    (moduleName : Option String) (invocationType : InvocationType)
    (isAsync oneway : Bool) (implResult : PyVal) : InvokeOutcome :=
  if isAsync && oneway then
    { implCalled := false,
      result := Except.error
        (PyErr.valueError "async oneway calls do not make sense") }
  else
    match function, moduleName with
    | FunctionArg.serialized _, some _ =>
      { implCalled := false,
        result := Except.error (PyErr.valueError
          "The module_name keyword must be None when the function argument is not a string.") }
    | FunctionArg.byName _, none =>
      { implCalled := false,
        result := Except.error (PyErr.valueError
          "A module name is required when a function name is given") }
    | _, _ =>
      -- line 358: `self._invoke_function_impl(...)`; `implResult` is
      -- discarded, the local `result` remains unbound
      let localResult : Option PyVal := none
      let afterWrap : Except PyErr (Option PyVal) :=
        if !oneway && (invocationType == InvocationType.Single) then
          match readLocalResult localResult with
          | Except.error e => Except.error e
          | Except.ok v => Except.ok (some (PyVal.dict1 workerName v))
        else Except.ok localResult
      match afterWrap with
      | Except.error e => { implCalled := true, result := Except.error e }
      | Except.ok r1 =>
        let afterAsync : Except PyErr (Option PyVal) :=
          if isAsync then
            match readLocalResult r1 with
            | Except.error e => Except.error e
            | Except.ok v => Except.ok (some (PyVal.asyncResult v))
          else Except.ok r1
        match afterAsync with
        | Except.error e => { implCalled := true, result := Except.error e }
        | Except.ok r2 =>
          { implCalled := true, result := readLocalResult r2 }

/-- `ScenarioTreeManagerWorkerPyro.invoke_method` (lines 372-396).
`attrs` embeds `getattr(self, method_name)(*method_args, **method_kwds)`:
the value the named bound method produces, or `none` when the worker has
no attribute of that name. -/
def invoke_method (workerName : String) (attrs : String → Option PyVal)
    (methodName : String) (isAsync oneway : Bool) : InvokeOutcome :=
  if isAsync && oneway then
    { implCalled := false,
      result := Except.error
        (PyErr.valueError "async oneway calls do not make sense") }
  else
    match attrs methodName with
    | none =>
      { implCalled := false,
        result := Except.error (PyErr.attributeError methodName) }
    | some r =>
      let r1 := if !oneway then PyVal.dict1 workerName r else r
      let r2 := if isAsync then PyVal.asyncResult r1 else r1
      { implCalled := true, result := Except.ok r2 }

/-! ## `manager_worker_pyro.py`: worker initialization -/

/-- `WorkerInitType` from `server_pyro_utils`. -/
inductive WorkerInitKind where
  | Scenarios
  | Bundles
  deriving DecidableEq, Repr

/-- A `WorkerInit` value: the variant tag, the name list, and the
auxiliary data (`None` for `Scenarios`; the bundle-name → scenario-names
dictionary for `Bundles`). -/
structure WorkerInit where
  type_ : WorkerInitKind
  names : List String
  data : Option (List (String × List String))
  deriving DecidableEq, Repr

/-- A scenario of the tree: its name and its probability. -/
structure Scenario where
  name : String
  probability : Rat
  deriving DecidableEq, Repr

/-- A non-root tree node, as the communicator-construction loop sees it:
its name, its parent's name, and the names of the scenarios that are
descendants of the node in the full tree. -/
structure TNode where
  name : String
  parent : String
  scens : List String
  deriving DecidableEq, Repr

/-- The uncompressed scenario tree, restricted to what the embedded code
observes: the root node's name, the nodes of the interior stages
(`stages[1:-1]`, flattened in stage order), and the scenario list. -/
structure ScenarioTree where
  rootName : String
  interiorNodes : List TNode
  scenarios : List Scenario
  deriving DecidableEq, Repr

/-- Modelled from the spec: `ScenarioTree.make_compressed(scenario_list,
normalize)` lives in `pyomo.pysp.scenariotree.tree_structure`, which is
not among the provided sources.  Per the spec it restricts the tree to the
named scenarios; with normalization enabled the retained probabilities are
rescaled to sum to one, with it disabled the original probabilities are
preserved. -/
def make_compressed (scenarios : List Scenario) (names : List String)
    (normalize : Bool) : List Scenario :=
  let kept := scenarios.filter (fun s => s.name ∈ names)
  if normalize then
    let total := (kept.map Scenario.probability).sum
    kept.map (fun s => { s with probability := s.probability / total })
  else kept

/-- The per-variant validation and flattening performed by `_init` (lines
136-162): the `Scenarios` variant asserts a non-empty name list and absent
data and contributes its names; the `Bundles` variant asserts that the
data is a dictionary and the name list non-empty, then extends the list
with each named bundle's scenario names (a missing bundle name raises
`KeyError`; nothing checks that a bundle's scenario list is non-empty). -/
def bundleScenarioLists (d : List (String × List String)) :
    List String → Except PyErr (List String)
  | [] => Except.ok []
  | b :: rest =>
    match dictLookup d b with
    | none => Except.error (PyErr.keyError b)
    | some l =>
      match bundleScenarioLists d rest with
      | Except.error e => Except.error e
      | Except.ok tail => Except.ok (l ++ tail)

/-- The `scenarios_to_construct` list computed by `_init` (lines 136-162),
or the `AssertionError` raised by the validation asserts. -/
def scenariosToConstruct (wi : WorkerInit) : Except PyErr (List String) :=
  match wi.type_ with
  | WorkerInitKind.Scenarios =>
    -- assert len(worker_init.names) > 0 ; assert worker_init.data is None
    if wi.names.length > 0 then
      match wi.data with
      | none => Except.ok wi.names
      | some _ => Except.error PyErr.assertionError
    else Except.error PyErr.assertionError
  | WorkerInitKind.Bundles =>
    -- assert type(worker_init.data) is dict ; assert len(worker_init.names) > 0
    match wi.data with
    | none => Except.error PyErr.assertionError
    | some d =>
      if wi.names.length > 0 then bundleScenarioLists d wi.names
      else Except.error PyErr.assertionError

/-- The objective-sense invariant of `_init` (lines 186-189): read
scenario 0's sense (an empty scenario list raises `IndexError`), then
assert that every owned scenario declares that same sense. -/
def objectiveSenseCheck (senses : List Int) : Except PyErr Int :=
  match senses with
  | [] => Except.error PyErr.indexError
  | s0 :: rest =>
    if (s0 :: rest).all (fun s => s = s0) then Except.ok s0
    else Except.error PyErr.assertionError

/-! ## `manager_worker_pyro.py`: communicator topology (lines 200-219) -/

/-- The key passed to `comm.Split`: `0` to join the child group, or
`MPI.UNDEFINED` to participate in the collective call while being excluded
from the child group. -/
inductive SplitKey where
  | join
  | exclude
  deriving DecidableEq, Repr

/-- One collective `Split` call issued by this worker: the communicator it
was issued on, the key, and the child communicator obtained (`none` for an
exclusion split, whose return is not stored). -/
structure SplitEvent where
  parentComm : Nat
  key : SplitKey
  child : Option Nat
  deriving DecidableEq, Repr

/-- The evolving communicator state of the loop on lines 211-219: the
`self.mpi_comm_tree` dictionary (node name → communicator handle), the
`Split` calls issued so far, and a supply of fresh communicator handles. -/
structure CommState where
  comms : List (String × Nat)
  splits : List SplitEvent
  fresh : Nat
  deriving DecidableEq, Repr

/-- `self.mpi_comm_tree[name]` lookup. -/
def lookupComm : List (String × Nat) → String → Option Nat
  | [], _ => none
  | (k, c) :: rest, name => if k = name then some c else lookupComm rest name

/-- Modelled from the spec: `self._scenario_tree.contains_node(name)` on
the compressed tree is implemented in
`pyomo.pysp.scenariotree.tree_structure`, which is not among the provided
sources.  Per the spec, the compressed tree contains a node exactly when
this worker owns at least one scenario that is a descendant of the node. -/
def compressedContainsNode (owned : List String) (n : TNode) : Bool :=
  n.scens.any (fun s => owned.contains s)

/-- The body of the loop on lines 212-219 for one node: if the compressed
tree contains the node, split its parent's communicator with the join key
and store the child under the node's name (a missing parent entry raises
`KeyError`); otherwise, if the parent's communicator is present, issue the
exclusion split on it and store nothing. -/
def commSplitStep (contains : TNode → Bool) (st : CommState) (n : TNode) :
    Except PyErr CommState :=
  if contains n then
    match lookupComm st.comms n.parent with
    | none => Except.error (PyErr.keyError n.parent)
    | some pc =>
      Except.ok { comms := st.comms ++ [(n.name, st.fresh)],
                  splits := st.splits ++ [⟨pc, SplitKey.join, some st.fresh⟩],
                  fresh := st.fresh + 1 }
  else
    match lookupComm st.comms n.parent with
    | none => Except.ok st
    | some pc =>
      Except.ok { st with splits := st.splits ++ [⟨pc, SplitKey.exclude, none⟩] }

/-- The loop on lines 211-219, over the interior-stage nodes in stage
order. -/
def commSplitLoop (contains : TNode → Bool) :
    CommState → List TNode → Except PyErr CommState
  | st, [] => Except.ok st
  | st, n :: rest =>
    match commSplitStep contains st n with
    | Except.error e => Except.error e
    | Except.ok st2 => commSplitLoop contains st2 rest

/-- The communicator-construction block of `_init` (lines 200-219) when
MPI is enabled: store the externally supplied root communicator under the
root node's name, then run the split loop over every interior-stage
node. -/
def buildCommTree (contains : TNode → Bool) (rootName : String)
    (rootComm : Nat) (interiorNodes : List TNode) : Except PyErr CommState :=
  commSplitLoop contains
    { comms := [(rootName, rootComm)], splits := [], fresh := rootComm + 1 }
    interiorNodes

/-- `_close_impl` (lines 222-227) frees every communicator stored in
`self.mpi_comm_tree.values()`; this is the list of handles on which
`Free()` is called. -/
def closeFreedComms (comms : List (String × Nat)) : List Nat :=
  comms.map Prod.snd

/-! ## `manager_worker_pyro.py`: the `_init` pipeline -/

/-- The worker attributes set in `__init__` (lines 67-78) and mutated by
`_init`. -/
structure WorkerState where
  modules_imported : Option (List String) := none
  server_name : Option String := none
  worker_name : Option String := none
  uncompressed_scenario_tree : Option ScenarioTree := none
  mpi_comm_tree : List (String × Nat) := []
  deriving DecidableEq, Repr

/-- The worker state right after `__init__` (lines 67-78). -/
def freshWorkerState : WorkerState := {}

/-- The unconditional attribute assignments at the top of `_init` (lines
129-134), performed before any validation of `worker_init`. -/
def initAssignments (st : WorkerState) (modules : List String)
    (serverName : String) (tree : ScenarioTree) (workerName : String) :
    WorkerState :=
  { st with modules_imported := some modules,
            server_name := some serverName,
            uncompressed_scenario_tree := some tree,
            worker_name := some workerName }

/-- What a completed `_init` produces: the compressed scenario tree, the
single objective sense, and (when MPI is enabled) the communicator
state. -/
structure InitDone where
  compressed : List Scenario
  objectiveSense : Int
  commState : Option CommState
  deriving DecidableEq, Repr

/-- `ScenarioTreeManagerWorkerPyro._init` (lines 113-219) as a pipeline:
attribute assignment, `worker_init` validation and flattening, compressed
tree construction (`make_compressed` with `normalize=False`, line 166),
instance construction and `linkInInstances` (external; `senseOf` embeds
the objective sense each linked scenario instance declares), the
objective-sense assertion, and — when `mpi` carries a root communicator —
the communicator topology construction.  The returned pair is (the worker
state at exit, the outcome). -/
def workerInit (st0 : WorkerState) (modules : List String)
    (serverName : String) (tree : ScenarioTree) (workerName : String)
    (wi : WorkerInit) (senseOf : String → Int) (mpi : Option Nat) :
    WorkerState × Except PyErr InitDone :=
  let st := initAssignments st0 modules serverName tree workerName
  match scenariosToConstruct wi with
  | Except.error e => (st, Except.error e)
  | Except.ok names =>
    let compressed := make_compressed tree.scenarios names false
    match objectiveSenseCheck (compressed.map (fun s => senseOf s.name)) with
    | Except.error e => (st, Except.error e)
    | Except.ok sense =>
      match mpi with
      | none => (st, Except.ok ⟨compressed, sense, none⟩)
      | some rootComm =>
        let owned := compressed.map Scenario.name
        match buildCommTree (compressedContainsNode owned) tree.rootName
                rootComm tree.interiorNodes with
        | Except.error e => (st, Except.error e)
        | Except.ok cs =>
          ({ st with mpi_comm_tree := cs.comms },
           Except.ok ⟨compressed, sense, some cs⟩)

/-- Well-formedness of the interior-stage node list with respect to a
containment predicate: walking the nodes in stage order, every contained
node's parent is already available (the root, or an earlier contained
node).  This is the shape `stages[1:-1]` iteration guarantees on a real
scenario tree, where a node's parent lives in the previous stage. -/
def closureOK (contains : TNode → Bool) (avail : List String) :
    List TNode → Bool
  | [] => true
  | n :: rest =>
    if contains n then
      decide (n.parent ∈ avail) && closureOK contains (n.name :: avail) rest
    else closureOK contains avail rest

/-! # Theorems -/

/-! ## Helper lemmas -/

theorem lookupComm_append_of_some {l : List (String × Nat)} {x : String}
    {c : Nat} (k : String) (v : Nat) (h : lookupComm l x = some c) :
    lookupComm (l ++ [(k, v)]) x = some c := by
  induction l with
  | nil => simp [lookupComm] at h
  | cons p rest ih =>
    obtain ⟨k', v'⟩ := p
    by_cases hk : k' = x
    · simpa [lookupComm, hk] using h
    · simp [lookupComm, hk] at h ⊢
      exact ih h

theorem lookupComm_append_of_none {l : List (String × Nat)} {x : String}
    (k : String) (v : Nat) (h : lookupComm l x = none) :
    lookupComm (l ++ [(k, v)]) x = if k = x then some v else none := by
  induction l with
  | nil => simp [lookupComm]
  | cons p rest ih =>
    obtain ⟨k', v'⟩ := p
    by_cases hk : k' = x
    · simp [lookupComm, hk] at h
    · simp [lookupComm, hk] at h ⊢
      exact ih h

theorem lookupComm_append_isSome {l : List (String × Nat)} {x : String}
    (k : String) (v : Nat) :
    (lookupComm (l ++ [(k, v)]) x).isSome = true ↔
      ((lookupComm l x).isSome = true ∨ k = x) := by
  cases h : lookupComm l x with
  | some c => simp [lookupComm_append_of_some k v h, h]
  | none =>
    rw [lookupComm_append_of_none k v h]
    by_cases hk : k = x <;> simp [hk, h]

/-! ## C2: scoped option override in `SPSolver.solve` -/

theorem solve_snd_eq_opts {V : Type} (name : Option String)
    (opts : SolverOptions V) (tmpOptions : Option (SolverOptions V))
    (referenceModel : Option (RefModel V)) (elapsed : Nat)
    (solveImpl : SolverOptions V → Except PyErr (SPSolverResults V)) :
    (SPSolver.solve name opts tmpOptions referenceModel elapsed solveImpl).2
      = opts := by
  unfold SPSolver.solve
  repeat' split
  all_goals rfl

/-- Claim C2: for every `SPSolver.solve` call with a per-call options
override, the persistent option set observed after the call equals the one
observed before it, both when the delegated `_solve_impl` returns normally
and when it raises. -/
theorem spsolver_solve_restores_options {V : Type} (name : Option String)
    (opts : SolverOptions V) (tmpOptions : Option (SolverOptions V))
    (referenceModel : Option (RefModel V)) (elapsed : Nat)
    (solveImpl : SolverOptions V → Except PyErr (SPSolverResults V))
    (tmp : SolverOptions V) (hGiven : tmpOptions = some tmp) :
    (SPSolver.solve name opts tmpOptions referenceModel elapsed solveImpl).2
      = opts :=
  solve_snd_eq_opts name opts tmpOptions referenceModel elapsed solveImpl

theorem spsolver_solve_restores_options_witness :
    ((SPSolver.solve (some "sd") [("a", (1 : Int))] (some [("a", 2)]) none 0
        (fun _ => Except.error PyErr.assertionError)).2 = [("a", 1)])
    ∧ ((SPSolver.solve (some "sd") [("a", (1 : Int))] (some [("a", 2)]) none 0
        (fun o => Except.ok { objective := SPVal.val (o.length : Int) })).2
          = [("a", 1)]) :=
  ⟨spsolver_solve_restores_options (some "sd") [("a", 1)] (some [("a", 2)])
      none 0 (fun _ => Except.error PyErr.assertionError) [("a", 2)] rfl,
   spsolver_solve_restores_options (some "sd") [("a", 1)] (some [("a", 2)])
      none 0 (fun o => Except.ok { objective := SPVal.val (o.length : Int) })
      [("a", 2)] rfl⟩

/-! ## C5: duplicate solver registration -/

/-- Counterexample to claim C5: after registering the type tagged `1`
under name `"sd"`, registering the type tagged `2` under the same name
does not fail — it succeeds and overwrites the first registration. -/
theorem register_solver_duplicate_accepts :
    registerSolver [] "sd" ⟨1, true⟩ = Except.ok [("sd", ⟨1, true⟩)]
    ∧ registerSolver [("sd", ⟨1, true⟩)] "sd" ⟨2, true⟩
        = Except.ok [("sd", ⟨2, true⟩)]
    ∧ dictLookup [("sd", (⟨2, true⟩ : SolverType))] "sd" = some ⟨2, true⟩ :=
  ⟨rfl, rfl, rfl⟩

/-- Claim C5 (amended): after a successful registration of `T1` under
name `n`, a second registration of a recognized solver type `T2` under
the same name succeeds and replaces the first, so the registry afterwards
resolves `n` to `T2`. -/
theorem register_solver_duplicate_replaces (reg : SolverRegistry)
    (n : String) (T1 T2 : SolverType)
    (h2 : T2.isSPSolverSubclass = true) (reg1 : SolverRegistry)
    (hfirst : registerSolver reg n T1 = Except.ok reg1) :
    ∃ reg2, registerSolver reg1 n T2 = Except.ok reg2
      ∧ dictLookup reg2 n = some T2 := by
  refine ⟨dictSet reg1 n T2, ?_, dictLookup_dictSet_self reg1 n T2⟩
  simp [registerSolver, h2]

theorem register_solver_duplicate_replaces_witness :
    ∃ reg2, registerSolver [("sd", ⟨1, true⟩)] "sd" ⟨2, true⟩
        = Except.ok reg2
      ∧ dictLookup reg2 "sd" = some ⟨2, true⟩ :=
  register_solver_duplicate_replaces [] "sd" ⟨1, true⟩ ⟨2, true⟩ rfl
    [("sd", ⟨1, true⟩)] rfl

/-! ## C8: the async/oneway flags are mutually exclusive -/

/-- Claim C8: calling `invoke_function` or `invoke_method` with both
`async` and `oneway` set raises `ValueError` before any user-supplied
function or target method is executed. -/
theorem invoke_flags_mutually_exclusive (workerName : String)
    (function : FunctionArg) (moduleName : Option String)
    (invocationType : InvocationType) (implResult : PyVal)
    (attrs : String → Option PyVal) (methodName : String) :
    invoke_function workerName function moduleName invocationType
        true true implResult
      = { implCalled := false,
          result := Except.error
            (PyErr.valueError "async oneway calls do not make sense") }
    ∧ invoke_method workerName attrs methodName true true
      = { implCalled := false,
          result := Except.error
            (PyErr.valueError "async oneway calls do not make sense") } :=
  ⟨rfl, rfl⟩

/-! ## C1: the default-mode `invoke_function` result -/

/-- Claim C1 is contradicted by the code: in default mode
(`async=False`, `oneway=False`), with a valid function/module pair,
`invoke_function` never returns `{worker_name: result}` — the return
value of `_invoke_function_impl` is dropped on line 358, so the local
`result` consulted afterwards is unbound and the call raises
`UnboundLocalError`, for every invocation type and whatever value the
invocation helper produced. -/
theorem invoke_function_default_mode_unbound_local (workerName : String)
    (invocationType : InvocationType) (implResult : PyVal) :
    (invoke_function workerName (FunctionArg.byName "f") (some "mod")
        invocationType false false implResult).result
      = Except.error (PyErr.unboundLocalError "result") := by
  cases invocationType <;> rfl

/-! ## C7: the objective-sense invariant aborts `_init` -/

theorem objectiveSenseCheck_error_of_mismatch (senses : List Int)
    (h : ∃ a ∈ senses, ∃ b ∈ senses, a ≠ b) :
    objectiveSenseCheck senses = Except.error PyErr.assertionError := by
  obtain ⟨a, ha, b, hb, hne⟩ := h
  cases senses with
  | nil => simp at ha
  | cons s0 rest =>
    simp only [objectiveSenseCheck]
    rw [if_neg]
    intro hall
    rw [List.all_eq_true] at hall
    have ha' := hall a ha
    have hb' := hall b hb
    simp only [decide_eq_true_eq] at ha' hb'
    exact hne (ha'.trans hb'.symm)

/-- Claim C7: whenever the scenarios of the worker's compressed tree do
not all share one objective sense after instances are linked in
(`senseOf` giving each linked scenario's declared sense), `_init` aborts
with the assertion on lines 186-189 instead of returning. -/
theorem worker_init_objective_sense_mismatch_aborts (st0 : WorkerState)
    (modules : List String) (serverName : String) (tree : ScenarioTree)
    (workerName : String) (wi : WorkerInit) (senseOf : String → Int)
    (mpi : Option Nat) (names : List String)
    (hflat : scenariosToConstruct wi = Except.ok names)
    (hmismatch : ∃ s1 ∈ make_compressed tree.scenarios names false,
        ∃ s2 ∈ make_compressed tree.scenarios names false,
          senseOf s1.name ≠ senseOf s2.name) :
    (workerInit st0 modules serverName tree workerName wi senseOf mpi).2
      = Except.error PyErr.assertionError := by
  have hsc : objectiveSenseCheck
      ((make_compressed tree.scenarios names false).map
        (fun s => senseOf s.name)) = Except.error PyErr.assertionError := by
    apply objectiveSenseCheck_error_of_mismatch
    obtain ⟨s1, h1, s2, h2, hne⟩ := hmismatch
    exact ⟨senseOf s1.name, List.mem_map_of_mem _ h1,
           senseOf s2.name, List.mem_map_of_mem _ h2, hne⟩
  unfold workerInit
  rw [hflat]
  simp only [hsc]

theorem worker_init_objective_sense_mismatch_aborts_witness :
    (workerInit freshWorkerState [] "srv"
        ⟨"R", [], [⟨"s1", 1⟩, ⟨"s2", 1⟩]⟩ "w"
        ⟨WorkerInitKind.Scenarios, ["s1", "s2"], none⟩
        (fun nm => if nm = "s1" then 1 else -1) none).2
      = Except.error PyErr.assertionError :=
  worker_init_objective_sense_mismatch_aborts freshWorkerState [] "srv"
    ⟨"R", [], [⟨"s1", 1⟩, ⟨"s2", 1⟩]⟩ "w"
    ⟨WorkerInitKind.Scenarios, ["s1", "s2"], none⟩
    (fun nm => if nm = "s1" then 1 else -1) none ["s1", "s2"] rfl
    (by decide)

/-! ## C6: malformed `WorkerInit` validation -/

theorem workerInit_of_flatten_error (st0 : WorkerState)
    (modules : List String) (serverName : String) (tree : ScenarioTree)
    (workerName : String) (wi : WorkerInit) (senseOf : String → Int)
    (mpi : Option Nat) (e : PyErr)
    (h : scenariosToConstruct wi = Except.error e) :
    workerInit st0 modules serverName tree workerName wi senseOf mpi
      = (initAssignments st0 modules serverName tree workerName,
         Except.error e) := by
  unfold workerInit
  rw [h]

theorem bundleScenarioLists_ok (d : List (String × List String))
    (names : List String)
    (h : ∀ nm ∈ names, (dictLookup d nm).isSome = true) :
    ∃ l, bundleScenarioLists d names = Except.ok l := by
  induction names with
  | nil => exact ⟨[], rfl⟩
  | cons b rest ih =>
    have hb := h b (List.mem_cons_self b rest)
    obtain ⟨lb, hlb⟩ := Option.isSome_iff_exists.mp hb
    obtain ⟨tail, htail⟩ := ih (fun nm hnm => h nm (List.mem_cons_of_mem b hnm))
    exact ⟨lb ++ tail, by simp [bundleScenarioLists, hlb, htail]⟩

theorem scenariosToConstruct_error_of_malformed (wi : WorkerInit)
    (hm : (wi.type_ = WorkerInitKind.Scenarios ∧
            (wi.names = [] ∨ wi.data ≠ none)) ∨
          (wi.type_ = WorkerInitKind.Bundles ∧ wi.names = [])) :
    scenariosToConstruct wi = Except.error PyErr.assertionError := by
  obtain ⟨tk, names, data⟩ := wi
  rcases hm with ⟨hk, hbad⟩ | ⟨hk, hnames⟩
  · subst hk
    rcases hbad with hnames | hdata
    · subst hnames
      simp [scenariosToConstruct]
    · cases names with
      | nil => simp [scenariosToConstruct]
      | cons a rest =>
        cases data with
        | none => simp at hdata
        | some d => simp [scenariosToConstruct]
  · subst hk
    simp only at hnames
    subst hnames
    cases data with
    | none => simp [scenariosToConstruct]
    | some d => simp [scenariosToConstruct]

/-- Counterexample to claim C6: on the malformed `Scenarios`-variant
`WorkerInit` with an empty name list, `_init` does fail with the
assertion, but only after the unconditional attribute assignments of
lines 129-134 have mutated worker state (`_worker_name` has changed from
unset to `"w"`); moreover the validation accepts a `Bundles` variant in
which bundle `"b2"` maps to an empty scenario-name list, so that shape is
not rejected at all. -/
theorem worker_init_malformed_counterexample :
    ((workerInit freshWorkerState [] "srv" ⟨"R", [], [⟨"s1", 1⟩]⟩ "w"
        ⟨WorkerInitKind.Scenarios, [], none⟩ (fun _ => 1) none).2
      = Except.error PyErr.assertionError)
    ∧ ((workerInit freshWorkerState [] "srv" ⟨"R", [], [⟨"s1", 1⟩]⟩ "w"
        ⟨WorkerInitKind.Scenarios, [], none⟩ (fun _ => 1) none).1.worker_name
      = some "w")
    ∧ freshWorkerState.worker_name = none
    ∧ scenariosToConstruct
        ⟨WorkerInitKind.Bundles, ["b1", "b2"],
         some [("b1", ["s1"]), ("b2", [])]⟩ = Except.ok ["s1"] :=
  ⟨rfl, rfl, rfl, rfl⟩

/-- Claim C6 (amended): a `Scenarios`-variant `WorkerInit` with an empty
name list or with auxiliary data present, and a `Bundles` variant with an
empty name list (or whose data is not a dictionary), make `_init` fail
with `AssertionError` — but only after the unconditional attribute
assignments of lines 129-134 have already mutated worker state; and a
`Bundles` variant in which some bundle name maps to an empty
scenario-name list is not rejected by the validation, which succeeds
whenever every bundle name is a key of the data dictionary. -/
theorem worker_init_malformed_validation :
    (∀ (st0 : WorkerState) (modules : List String) (serverName : String)
        (tree : ScenarioTree) (workerName : String) (wi : WorkerInit)
        (senseOf : String → Int) (mpi : Option Nat),
      ((wi.type_ = WorkerInitKind.Scenarios ∧
          (wi.names = [] ∨ wi.data ≠ none)) ∨
       (wi.type_ = WorkerInitKind.Bundles ∧ wi.names = [])) →
      (workerInit st0 modules serverName tree workerName wi senseOf mpi).2
          = Except.error PyErr.assertionError
        ∧ (workerInit st0 modules serverName tree workerName wi senseOf
            mpi).1
          = initAssignments st0 modules serverName tree workerName)
    ∧ (∀ (names : List String) (d : List (String × List String)),
        names ≠ [] →
        (∀ nm ∈ names, (dictLookup d nm).isSome = true) →
        ∃ l, scenariosToConstruct ⟨WorkerInitKind.Bundles, names, some d⟩
            = Except.ok l) := by
  constructor
  · intro st0 modules serverName tree workerName wi senseOf mpi hm
    have herr := scenariosToConstruct_error_of_malformed wi hm
    rw [workerInit_of_flatten_error st0 modules serverName tree workerName
      wi senseOf mpi PyErr.assertionError herr]
    exact ⟨rfl, rfl⟩
  · intro names d hne hfound
    obtain ⟨l, hl⟩ := bundleScenarioLists_ok d names hfound
    refine ⟨l, ?_⟩
    simp only [scenariosToConstruct]
    rw [if_pos]
    · exact hl
    · cases names with
      | nil => exact absurd rfl hne
      | cons a rest => simp

theorem worker_init_malformed_validation_witness :
    ((workerInit freshWorkerState [] "srv" ⟨"R", [], []⟩ "w"
        ⟨WorkerInitKind.Scenarios, [], none⟩ (fun _ => 1) none).2
        = Except.error PyErr.assertionError
      ∧ (workerInit freshWorkerState [] "srv" ⟨"R", [], []⟩ "w"
          ⟨WorkerInitKind.Scenarios, [], none⟩ (fun _ => 1) none).1
        = initAssignments freshWorkerState [] "srv" ⟨"R", [], []⟩ "w")
    ∧ ∃ l, scenariosToConstruct
        ⟨WorkerInitKind.Bundles, ["b1"], some [("b1", [])]⟩
        = Except.ok l :=
  ⟨worker_init_malformed_validation.1 freshWorkerState [] "srv"
      ⟨"R", [], []⟩ "w" ⟨WorkerInitKind.Scenarios, [], none⟩ (fun _ => 1)
      none (Or.inl ⟨rfl, Or.inl rfl⟩),
   worker_init_malformed_validation.2 ["b1"] [("b1", [])] (by decide)
      (by decide)⟩

/-! ## C4: the compressed tree of a `Scenarios`-variant worker -/

theorem scenariosToConstruct_scenarios_ok (wi : WorkerInit)
    (hkind : wi.type_ = WorkerInitKind.Scenarios) (names : List String)
    (h : scenariosToConstruct wi = Except.ok names) : names = wi.names := by
  obtain ⟨tk, ns, data⟩ := wi
  simp only at hkind
  subst hkind
  simp only [scenariosToConstruct] at h
  by_cases hlen : ns.length > 0
  · rw [if_pos hlen] at h
    cases data with
    | none => exact (Except.ok.injEq _ _ ▸ h).symm
    | some d => simp at h
  · rw [if_neg hlen] at h
    simp at h

theorem mem_make_compressed_iff (scenarios : List Scenario)
    (names : List String) (s : Scenario) :
    s ∈ make_compressed scenarios names false ↔
      s ∈ scenarios ∧ s.name ∈ names := by
  simp [make_compressed, List.mem_filter]

/-- Claim C4: for a valid `Scenarios`-variant `WorkerInit` whose names
all exist in the uncompressed tree, a completed `_init` leaves the worker
with a compressed tree holding exactly the requested scenarios and no
others, each being the original scenario record of the uncompressed tree
(in particular its probability is preserved — `make_compressed` is called
with normalization disabled, line 169). -/
theorem worker_init_scenarios_compressed (st0 : WorkerState)
    (modules : List String) (serverName : String) (tree : ScenarioTree)
    (workerName : String) (wi : WorkerInit) (senseOf : String → Int)
    (mpi : Option Nat) (st1 : WorkerState) (done : InitDone)
    (hkind : wi.type_ = WorkerInitKind.Scenarios)
    (hsub : ∀ nm ∈ wi.names, nm ∈ tree.scenarios.map Scenario.name)
    (hrun : workerInit st0 modules serverName tree workerName wi senseOf mpi
      = (st1, Except.ok done)) :
    (∀ nm, nm ∈ done.compressed.map Scenario.name ↔ nm ∈ wi.names)
    ∧ (∀ s ∈ done.compressed, s ∈ tree.scenarios ∧ s.name ∈ wi.names)
    ∧ (∀ s ∈ tree.scenarios, s.name ∈ wi.names → s ∈ done.compressed) := by
  have hcomp : done.compressed = make_compressed tree.scenarios wi.names false := by
    unfold workerInit at hrun
    cases hflat : scenariosToConstruct wi with
    | error e => rw [hflat] at hrun; simp at hrun
    | ok names =>
      have hnames := scenariosToConstruct_scenarios_ok wi hkind names hflat
      subst hnames
      rw [hflat] at hrun
      dsimp only at hrun
      cases hsc : objectiveSenseCheck
          ((make_compressed tree.scenarios wi.names false).map
            (fun s => senseOf s.name)) with
      | error e => rw [hsc] at hrun; simp at hrun
      | ok sense =>
        rw [hsc] at hrun
        dsimp only at hrun
        cases mpi with
        | none =>
          dsimp only at hrun
          simp only [Prod.mk.injEq, Except.ok.injEq] at hrun
          rw [← hrun.2]
        | some rootComm =>
          dsimp only at hrun
          cases hbc : buildCommTree
              (compressedContainsNode
                ((make_compressed tree.scenarios wi.names false).map
                  Scenario.name))
              tree.rootName rootComm tree.interiorNodes with
          | error e => rw [hbc] at hrun; simp at hrun
          | ok cs =>
            rw [hbc] at hrun
            simp only [Prod.mk.injEq, Except.ok.injEq] at hrun
            rw [← hrun.2]
  rw [hcomp]
  refine ⟨?_, ?_, ?_⟩
  · intro nm
    constructor
    · intro hmem
      obtain ⟨s, hs, hname⟩ := List.mem_map.mp hmem
      exact hname ▸ ((mem_make_compressed_iff _ _ _).mp hs).2
    · intro hmem
      obtain ⟨s, hsmem, hsname⟩ := List.mem_map.mp (hsub nm hmem)
      exact List.mem_map.mpr
        ⟨s, (mem_make_compressed_iff _ _ _).mpr ⟨hsmem, hsname ▸ hmem⟩, hsname⟩
  · intro s hs
    exact (mem_make_compressed_iff _ _ _).mp hs
  · intro s hs hname
    exact (mem_make_compressed_iff _ _ _).mpr ⟨hs, hname⟩

theorem worker_init_scenarios_compressed_witness :
    (∀ nm, nm ∈ (InitDone.mk [⟨"s1", 1/4⟩, ⟨"s3", 1/4⟩] 1 none).compressed.map
        Scenario.name ↔ nm ∈ ["s1", "s3"])
    ∧ (∀ s ∈ (InitDone.mk [⟨"s1", 1/4⟩, ⟨"s3", 1/4⟩] 1 none).compressed,
        s ∈ ([⟨"s1", 1/4⟩, ⟨"s2", 1/4⟩, ⟨"s3", 1/4⟩, ⟨"s4", 1/4⟩] :
          List Scenario) ∧ s.name ∈ ["s1", "s3"])
    ∧ (∀ s ∈ ([⟨"s1", 1/4⟩, ⟨"s2", 1/4⟩, ⟨"s3", 1/4⟩, ⟨"s4", 1/4⟩] :
          List Scenario), s.name ∈ ["s1", "s3"] →
        s ∈ (InitDone.mk [⟨"s1", 1/4⟩, ⟨"s3", 1/4⟩] 1 none).compressed) :=
  worker_init_scenarios_compressed freshWorkerState [] "srv"
    ⟨"R", [], [⟨"s1", 1/4⟩, ⟨"s2", 1/4⟩, ⟨"s3", 1/4⟩, ⟨"s4", 1/4⟩]⟩ "w"
    ⟨WorkerInitKind.Scenarios, ["s1", "s3"], none⟩ (fun _ => 1) none
    (initAssignments freshWorkerState [] "srv"
      ⟨"R", [], [⟨"s1", 1/4⟩, ⟨"s2", 1/4⟩, ⟨"s3", 1/4⟩, ⟨"s4", 1/4⟩]⟩ "w")
    (InitDone.mk [⟨"s1", 1/4⟩, ⟨"s3", 1/4⟩] 1 none) rfl (by decide) rfl

/-! ## C9: reference-model write-back in `SPSolver.solve` -/

theorem findComponent_setComponentValue {V : Type} (m : RefModel V)
    (id_ id' : String) (v : V) :
    findComponent (setComponentValue m id_ v) id' =
      if id' = id_ then
        (findComponent m id').map
          (fun c => { c with value := some v, stale := false })
      else findComponent m id' := by
  induction m with
  | nil => by_cases h : id' = id_ <;> simp [setComponentValue, findComponent, h]
  | cons p rest ih =>
    obtain ⟨k, c⟩ := p
    by_cases hk : k = id_
    · subst hk
      by_cases hk' : k = id'
      · subst hk'
        simp [setComponentValue, findComponent]
      · have hc : ¬(id' = k) := fun hh => hk' hh.symm
        simp [setComponentValue, findComponent, hk', hc, ih]
    · by_cases hk' : k = id'
      · subst hk'
        have hc : ¬(k = id_) := hk
        by_cases hcc : k = id_
        · exact absurd hcc hc
        · simp [setComponentValue, findComponent, hcc, ih]
      · have h1 : ¬(k = id') := hk'
        simp [setComponentValue, findComponent, hk, h1, ih]

theorem findComponent_setComponentValue_isSome {V : Type} (m : RefModel V)
    (id_ id' : String) (v : V) :
    (findComponent (setComponentValue m id_ v) id').isSome
      = (findComponent m id').isSome := by
  rw [findComponent_setComponentValue]
  split
  · cases findComponent m id' <;> rfl
  · rfl

theorem loadTreeObjSolution_ok {V : Type} (sol : List (String × V)) :
    ∀ m : RefModel V, (∀ p ∈ sol, (findComponent m p.1).isSome = true) →
      ∃ m2, loadTreeObjSolution m sol = Except.ok m2 := by
  induction sol with
  | nil => exact fun m _ => ⟨m, rfl⟩
  | cons p rest ih =>
    intro m h
    obtain ⟨id_, v⟩ := p
    obtain ⟨c, hc⟩ := Option.isSome_iff_exists.mp
      (h (id_, v) (List.mem_cons_self _ _))
    simp only [loadTreeObjSolution, hc]
    by_cases hex : c.isExpression = true
    · rw [if_pos hex]
      exact ih m (fun q hq => h q (List.mem_cons_of_mem _ hq))
    · rw [if_neg hex]
      refine ih (setComponentValue m id_ v) (fun q hq => ?_)
      rw [findComponent_setComponentValue_isSome]
      exact h q (List.mem_cons_of_mem _ hq)

theorem loadTreeObjSolution_find_of_not_mem {V : Type}
    (sol : List (String × V)) :
    ∀ (m m2 : RefModel V) (id_ : String), id_ ∉ sol.map Prod.fst →
      loadTreeObjSolution m sol = Except.ok m2 →
      findComponent m2 id_ = findComponent m id_ := by
  induction sol with
  | nil =>
    intro m m2 id_ _ h
    cases h
    rfl
  | cons p rest ih =>
    intro m m2 id_ hnmem h
    obtain ⟨id0, v0⟩ := p
    simp only [List.map_cons, List.mem_cons, not_or] at hnmem
    obtain ⟨hne, hrest⟩ := hnmem
    simp only [loadTreeObjSolution] at h
    cases hc : findComponent m id0 with
    | none => rw [hc] at h; exact absurd h (by simp)
    | some c =>
      rw [hc] at h
      dsimp only at h
      by_cases hex : c.isExpression = true
      · rw [if_pos hex] at h
        exact ih m m2 id_ hrest h
      · rw [if_neg hex] at h
        rw [ih (setComponentValue m id0 v0) m2 id_ hrest h,
          findComponent_setComponentValue, if_neg hne]

theorem loadTreeObjSolution_writes {V : Type} (sol : List (String × V)) :
    ∀ (m m2 : RefModel V), (sol.map Prod.fst).Nodup →
      loadTreeObjSolution m sol = Except.ok m2 →
      ∀ (id_ : String) (v : V), (id_, v) ∈ sol →
        ∀ c, findComponent m id_ = some c → c.isExpression = false →
          findComponent m2 id_
            = some { c with value := some v, stale := false } := by
  induction sol with
  | nil =>
    intro m m2 _ _ id_ v hmem
    simp at hmem
  | cons p rest ih =>
    intro m m2 hnodup h id_ v hmem c hfind hex
    obtain ⟨id0, v0⟩ := p
    simp only [List.map_cons, List.nodup_cons] at hnodup
    obtain ⟨hid0, hnodup'⟩ := hnodup
    simp only [loadTreeObjSolution] at h
    rcases List.mem_cons.mp hmem with heq | hmem'
    · injection heq with h1 h2
      subst h1
      subst h2
      rw [hfind] at h
      dsimp only at h
      rw [if_neg (by rw [hex]; exact Bool.false_ne_true)] at h
      rw [loadTreeObjSolution_find_of_not_mem rest (setComponentValue m id_ v)
        m2 id_ hid0 h]
      rw [findComponent_setComponentValue, if_pos rfl, hfind]
      rfl
    · cases hc0 : findComponent m id0 with
      | none =>
        rw [hc0] at h
        exact absurd h (by simp)
      | some c0 =>
        rw [hc0] at h
        dsimp only at h
        have hne : ¬(id_ = id0) := by
          intro hh
          exact hid0 (hh ▸ List.mem_map_of_mem Prod.fst hmem')
        by_cases hex0 : c0.isExpression = true
        · rw [if_pos hex0] at h
          exact ih m m2 hnodup' h id_ v hmem' c hfind hex
        · rw [if_neg hex0] at h
          refine ih (setComponentValue m id0 v0) m2 hnodup' h id_ v hmem' c
            ?_ hex
          rw [findComponent_setComponentValue, if_neg hne]
          exact hfind

theorem loadTreeObjSolution_append {V : Type} (a b : List (String × V)) :
    ∀ m : RefModel V, loadTreeObjSolution m (a ++ b)
      = match loadTreeObjSolution m a with
        | Except.error e => Except.error e
        | Except.ok m2 => loadTreeObjSolution m2 b := by
  induction a with
  | nil => intro m; rfl
  | cons p rest ih =>
    intro m
    obtain ⟨id_, v⟩ := p
    simp only [List.cons_append, loadTreeObjSolution]
    cases findComponent m id_ with
    | none => rfl
    | some c =>
      dsimp only
      by_cases hex : c.isExpression = true
      · rw [if_pos hex, if_pos hex]
        simp only [List.append_eq]
        rw [ih]
      · rw [if_neg hex, if_neg hex]
        simp only [List.append_eq]
        rw [ih]

theorem loadXhat_eq_join {V : Type} (xh : Xhat V) :
    ∀ m : RefModel V,
      loadXhat m xh = loadTreeObjSolution m (xh.map Prod.snd).flatten := by
  induction xh with
  | nil => intro m; rfl
  | cons p rest ih =>
    intro m
    obtain ⟨nm, sol⟩ := p
    simp only [loadXhat, List.map_cons, List.flatten_cons,
      loadTreeObjSolution_append]
    cases hsol : loadTreeObjSolution m sol with
    | error e => rfl
    | ok m2 => exact ih m2

/-- Claim C9: when `SPSolver.solve` runs with a reference model and the
delegated strategy succeeds with a solution mapping `xh` whose
identifiers all resolve on the model (and are pairwise distinct), the
call succeeds, every identifier resolving to a non-expression component
has its solution value written onto that component with the stale flag
cleared, and the returned results object no longer carries the raw
solution mapping (`xhat` has been deleted). -/
theorem spsolver_solve_reference_model_writeback {V : Type}
    (name : Option String) (opts : SolverOptions V)
    (tmpOptions : Option (SolverOptions V)) (elapsed : Nat) (m : RefModel V)
    (solveImpl : SolverOptions V → Except PyErr (SPSolverResults V))
    (results0 : SPSolverResults V) (xh : Xhat V)
    (hImpl : solveImpl (effectiveOptions opts tmpOptions)
      = Except.ok results0)
    (hxhat : results0.xhat = some xh)
    (hResolve : ∀ p ∈ (xh.map Prod.snd).flatten,
      (findComponent m p.1).isSome = true)
    (hNodup : ((xh.map Prod.snd).flatten.map Prod.fst).Nodup) :
    ∃ (r : SPSolverResults V) (m2 : RefModel V),
      SPSolver.solve name opts tmpOptions (some m) elapsed solveImpl
        = (Except.ok (r, some m2), opts)
      ∧ r.xhat = none
      ∧ ∀ (id_ : String) (v : V), (id_, v) ∈ (xh.map Prod.snd).flatten →
          ∀ c, findComponent m id_ = some c → c.isExpression = false →
            findComponent m2 id_
              = some { c with value := some v, stale := false } := by
  obtain ⟨m2, hm2⟩ := loadTreeObjSolution_ok (xh.map Prod.snd).flatten m hResolve
  have hload : loadXhat m xh = Except.ok m2 := by
    rw [loadXhat_eq_join]
    exact hm2
  refine ⟨{ stampResults name elapsed results0 with xhat := none }, m2,
    ?_, rfl, ?_⟩
  · unfold SPSolver.solve
    rw [hImpl]
    dsimp only
    rw [hxhat]
    dsimp only
    rw [hload]
  · intro id_ v hmem c hfind hex
    exact loadTreeObjSolution_writes (xh.map Prod.snd).flatten m m2 hNodup hm2
      id_ v hmem c hfind hex

theorem spsolver_solve_reference_model_writeback_witness :
    ∃ (r : SPSolverResults Int) (m2 : RefModel Int),
      SPSolver.solve (some "sd") ([] : SolverOptions Int) none
          (some [("x", ⟨false, none, true⟩)]) 3
          (fun _ => Except.ok
            { xhat := some [("root", [("x", (5 : Int))])] })
        = (Except.ok (r, some m2), [])
      ∧ r.xhat = none
      ∧ ∀ (id_ : String) (v : Int),
          (id_, v) ∈ (([("root", [("x", 5)])] : Xhat Int).map Prod.snd).flatten →
          ∀ c, findComponent ([("x", ⟨false, none, true⟩)] : RefModel Int) id_
              = some c →
            c.isExpression = false →
            findComponent m2 id_
              = some { c with value := some v, stale := false } :=
  spsolver_solve_reference_model_writeback (some "sd")
    ([] : SolverOptions Int) none 3
    [("x", ⟨false, none, true⟩)]
    (fun _ => Except.ok { xhat := some [("root", [("x", (5 : Int))])] })
    { xhat := some [("root", [("x", (5 : Int))])] } [("root", [("x", 5)])]
    rfl rfl (by decide) (by decide)

/-! ## C3 and C10: the communicator topology and its teardown -/

theorem workerInit_ok_inversion (st0 : WorkerState) (modules : List String)
    (serverName : String) (tree : ScenarioTree) (workerName : String)
    (wi : WorkerInit) (senseOf : String → Int) (mpi : Option Nat)
    (st1 : WorkerState) (done : InitDone)
    (hrun : workerInit st0 modules serverName tree workerName wi senseOf mpi
      = (st1, Except.ok done)) :
    ∃ names, scenariosToConstruct wi = Except.ok names
      ∧ done.compressed = make_compressed tree.scenarios names false
      ∧ ((mpi = none ∧ done.commState = none
            ∧ st1 = initAssignments st0 modules serverName tree workerName)
        ∨ (∃ rootComm cs, mpi = some rootComm
            ∧ buildCommTree
                (compressedContainsNode (done.compressed.map Scenario.name))
                tree.rootName rootComm tree.interiorNodes = Except.ok cs
            ∧ done.commState = some cs
            ∧ st1 = { initAssignments st0 modules serverName tree workerName
                        with mpi_comm_tree := cs.comms })) := by
  unfold workerInit at hrun
  cases hflat : scenariosToConstruct wi with
  | error e => rw [hflat] at hrun; simp at hrun
  | ok names =>
    rw [hflat] at hrun
    dsimp only at hrun
    refine ⟨names, rfl, ?_⟩
    cases hsc : objectiveSenseCheck
        ((make_compressed tree.scenarios names false).map
          (fun s => senseOf s.name)) with
    | error e => rw [hsc] at hrun; simp at hrun
    | ok sense =>
      rw [hsc] at hrun
      dsimp only at hrun
      cases mpi with
      | none =>
        dsimp only at hrun
        simp only [Prod.mk.injEq, Except.ok.injEq] at hrun
        obtain ⟨hst, hdone⟩ := hrun
        constructor
        · rw [← hdone]
        · exact Or.inl ⟨rfl, by rw [← hdone], hst.symm⟩
      | some rootComm =>
        dsimp only at hrun
        cases hbc : buildCommTree
            (compressedContainsNode
              ((make_compressed tree.scenarios names false).map
                Scenario.name))
            tree.rootName rootComm tree.interiorNodes with
        | error e => rw [hbc] at hrun; simp at hrun
        | ok cs =>
          rw [hbc] at hrun
          simp only [Prod.mk.injEq, Except.ok.injEq] at hrun
          obtain ⟨hst, hdone⟩ := hrun
          have hcomp : done.compressed
              = make_compressed tree.scenarios names false := by rw [← hdone]
          refine ⟨hcomp, Or.inr ⟨rootComm, cs, rfl, ?_, ?_, ?_⟩⟩
          · rw [hcomp]
            exact hbc
          · rw [← hdone]
          · rw [← hst]

theorem commSplitStep_comms_subset (contains : TNode → Bool)
    (st : CommState) (n : TNode) (st2 : CommState)
    (h : commSplitStep contains st n = Except.ok st2) :
    ∀ p ∈ st.comms, p ∈ st2.comms := by
  unfold commSplitStep at h
  by_cases hc : contains n = true
  · rw [if_pos hc] at h
    cases hp : lookupComm st.comms n.parent with
    | none => rw [hp] at h; exact absurd h (by simp)
    | some pc =>
      rw [hp] at h
      dsimp only at h
      injection h with h2
      rw [← h2]
      intro p hp2
      exact List.mem_append_left _ hp2
  · rw [if_neg hc] at h
    cases hp : lookupComm st.comms n.parent with
    | none =>
      rw [hp] at h
      injection h with h2
      rw [← h2]
      exact fun p hp2 => hp2
    | some pc =>
      rw [hp] at h
      injection h with h2
      rw [← h2]
      exact fun p hp2 => hp2

theorem commSplitLoop_comms_subset (contains : TNode → Bool) :
    ∀ (rest : List TNode) (st st' : CommState),
      commSplitLoop contains st rest = Except.ok st' →
      ∀ p ∈ st.comms, p ∈ st'.comms := by
  intro rest
  induction rest with
  | nil =>
    intro st st' h
    injection h with h2
    rw [← h2]
    exact fun p hp => hp
  | cons n rest ih =>
    intro st st' h
    simp only [commSplitLoop] at h
    cases hstep : commSplitStep contains st n with
    | error e => rw [hstep] at h; exact absurd h (by simp)
    | ok st2 =>
      rw [hstep] at h
      intro p hp
      exact ih st2 st' h p (commSplitStep_comms_subset contains st n st2 hstep p hp)

/-- Claim C10: a `_close_impl` after a successful MPI-enabled `_init`
calls `Free` on every communicator stored in the worker's
node-to-communicator mapping, and the externally supplied root
communicator is among them — the worker frees the caller-provided root
handle, not only the communicators it created by splitting. -/
theorem worker_close_frees_all_comms (st0 : WorkerState)
    (modules : List String) (serverName : String) (tree : ScenarioTree)
    (workerName : String) (wi : WorkerInit) (senseOf : String → Int)
    (rootComm : Nat) (st1 : WorkerState) (done : InitDone)
    (hrun : workerInit st0 modules serverName tree workerName wi senseOf
      (some rootComm) = (st1, Except.ok done)) :
    (∀ p ∈ st1.mpi_comm_tree, p.2 ∈ closeFreedComms st1.mpi_comm_tree)
    ∧ rootComm ∈ closeFreedComms st1.mpi_comm_tree := by
  obtain ⟨names, hflat, hcomp, hcase⟩ := workerInit_ok_inversion st0 modules
    serverName tree workerName wi senseOf (some rootComm) st1 done hrun
  rcases hcase with ⟨hnone, _, _⟩ | ⟨rc, cs, hrc, hbc, hcs, hst1⟩
  · exact absurd hnone (by simp)
  · injection hrc with hrc2
    subst hrc2
    have hroot_mem : (tree.rootName, rootComm) ∈ cs.comms := by
      apply commSplitLoop_comms_subset
        (compressedContainsNode (done.compressed.map Scenario.name))
        tree.interiorNodes _ cs hbc
      exact List.mem_singleton_self _
    constructor
    · intro p hp
      exact List.mem_map_of_mem Prod.snd hp
    · rw [hst1]
      exact List.mem_map_of_mem Prod.snd hroot_mem

theorem worker_close_frees_all_comms_witness :
    (∀ p ∈ ({ initAssignments freshWorkerState [] "srv"
          ⟨"R", [⟨"A", "R", ["s1"]⟩, ⟨"B", "R", ["s2"]⟩],
            [⟨"s1", 1⟩, ⟨"s2", 1⟩]⟩ "w"
          with mpi_comm_tree := [("R", 7), ("A", 8)] } :
          WorkerState).mpi_comm_tree,
        p.2 ∈ closeFreedComms [("R", 7), ("A", 8)])
    ∧ 7 ∈ closeFreedComms [("R", 7), ("A", 8)] :=
  worker_close_frees_all_comms freshWorkerState [] "srv"
    ⟨"R", [⟨"A", "R", ["s1"]⟩, ⟨"B", "R", ["s2"]⟩], [⟨"s1", 1⟩, ⟨"s2", 1⟩]⟩
    "w" ⟨WorkerInitKind.Scenarios, ["s1"], none⟩ (fun _ => 1) 7
    ({ initAssignments freshWorkerState [] "srv"
        ⟨"R", [⟨"A", "R", ["s1"]⟩, ⟨"B", "R", ["s2"]⟩],
          [⟨"s1", 1⟩, ⟨"s2", 1⟩]⟩ "w"
        with mpi_comm_tree := [("R", 7), ("A", 8)] })
    ⟨[⟨"s1", 1⟩], 1,
      some ⟨[("R", 7), ("A", 8)],
        [⟨7, SplitKey.join, some 8⟩, ⟨7, SplitKey.exclude, none⟩], 9⟩⟩
    rfl

theorem commSplitLoop_spec (contains : TNode → Bool) :
    ∀ (rest : List TNode) (st : CommState) (avail : List String),
      (∀ a ∈ avail, (lookupComm st.comms a).isSome = true) →
      closureOK contains avail rest = true →
      (∀ n ∈ rest, lookupComm st.comms n.name = none) →
      rest.Pairwise (fun a b => a.name ≠ b.name ∧ a.parent ≠ b.name) →
      ∃ st', commSplitLoop contains st rest = Except.ok st'
        ∧ (∀ name c, lookupComm st.comms name = some c →
            lookupComm st'.comms name = some c)
        ∧ (∀ e ∈ st.splits, e ∈ st'.splits)
        ∧ (∀ name, (lookupComm st'.comms name).isSome = true ↔
            ((lookupComm st.comms name).isSome = true ∨
              ∃ m ∈ rest, m.name = name ∧ contains m = true))
        ∧ (∀ n ∈ rest, contains n = true →
            ∃ pc c, lookupComm st'.comms n.parent = some pc
              ∧ lookupComm st'.comms n.name = some c
              ∧ (⟨pc, SplitKey.join, some c⟩ : SplitEvent) ∈ st'.splits)
        ∧ (∀ n ∈ rest, contains n = false →
            lookupComm st'.comms n.name = none
            ∧ ∀ pc, lookupComm st'.comms n.parent = some pc →
                (⟨pc, SplitKey.exclude, none⟩ : SplitEvent) ∈ st'.splits) := by
  intro rest
  induction rest with
  | nil =>
    intro st avail hA hC hF hP
    refine ⟨st, rfl, fun name c h => h, fun e he => he, ?_, ?_, ?_⟩
    · intro name
      simp
    · intro n hn
      exact absurd hn (List.not_mem_nil n)
    · intro n hn
      exact absurd hn (List.not_mem_nil n)
  | cons n rest ih =>
    intro st avail hA hC hF hP
    rw [List.pairwise_cons] at hP
    obtain ⟨hPhead, hPtail⟩ := hP
    cases hc : contains n with
    | true =>
      simp only [closureOK, hc, if_true, Bool.and_eq_true,
        decide_eq_true_eq] at hC
      obtain ⟨hpavail, hC2⟩ := hC
      obtain ⟨pc, hpc⟩ := Option.isSome_iff_exists.mp (hA n.parent hpavail)
      have hstep : commSplitStep contains st n
          = Except.ok ⟨st.comms ++ [(n.name, st.fresh)],
              st.splits ++ [⟨pc, SplitKey.join, some st.fresh⟩],
              st.fresh + 1⟩ := by
        simp [commSplitStep, hc, hpc]
      have hnNone : lookupComm st.comms n.name = none :=
        hF n (List.mem_cons_self n rest)
      have hA2 : ∀ a ∈ n.name :: avail,
          (lookupComm (st.comms ++ [(n.name, st.fresh)]) a).isSome = true := by
        intro a ha
        rcases List.mem_cons.mp ha with rfl | ha'
        · rw [lookupComm_append_of_none _ _ hnNone, if_pos rfl]
          rfl
        · exact (lookupComm_append_isSome _ _).mpr (Or.inl (hA a ha'))
      have hF2 : ∀ m ∈ rest,
          lookupComm (st.comms ++ [(n.name, st.fresh)]) m.name = none := by
        intro m hm
        rw [lookupComm_append_of_none _ _ (hF m (List.mem_cons_of_mem n hm)),
          if_neg (hPhead m hm).1]
      obtain ⟨st', hloop, hstab, hsplits, hK1, hK4, hK5⟩ :=
        ih ⟨st.comms ++ [(n.name, st.fresh)],
            st.splits ++ [⟨pc, SplitKey.join, some st.fresh⟩],
            st.fresh + 1⟩ (n.name :: avail) hA2 hC2 hF2 hPtail
      refine ⟨st', ?_, ?_, ?_, ?_, ?_, ?_⟩
      · simp only [commSplitLoop, hstep]
        exact hloop
      · intro name c h
        exact hstab name c (lookupComm_append_of_some _ _ h)
      · intro e he
        exact hsplits e (List.mem_append_left _ he)
      · intro name
        rw [hK1 name]
        rw [lookupComm_append_isSome]
        constructor
        · rintro ((h | h) | ⟨m, hm, hmn, hmc⟩)
          · exact Or.inl h
          · exact Or.inr ⟨n, List.mem_cons_self n rest, h, hc⟩
          · exact Or.inr ⟨m, List.mem_cons_of_mem n hm, hmn, hmc⟩
        · rintro (h | ⟨m, hm, hmn, hmc⟩)
          · exact Or.inl (Or.inl h)
          · rcases List.mem_cons.mp hm with rfl | hm'
            · exact Or.inl (Or.inr hmn)
            · exact Or.inr ⟨m, hm', hmn, hmc⟩
      · intro m hm hmc
        rcases List.mem_cons.mp hm with rfl | hm'
        · refine ⟨pc, st.fresh, ?_, ?_, ?_⟩
          · exact hstab m.parent pc (lookupComm_append_of_some _ _ hpc)
          · apply hstab
            rw [lookupComm_append_of_none _ _ hnNone, if_pos rfl]
          · apply hsplits
            exact List.mem_append_right _ (List.mem_singleton_self _)
        · exact hK4 m hm' hmc
      · intro m hm hmc
        rcases List.mem_cons.mp hm with rfl | hm'
        · simp [hc] at hmc
        · exact hK5 m hm' hmc
    | false =>
      simp only [closureOK, hc, Bool.false_eq_true, if_false] at hC
      cases hp : lookupComm st.comms n.parent with
      | none =>
        have hstep : commSplitStep contains st n = Except.ok st := by
          simp [commSplitStep, hc, hp]
        obtain ⟨st', hloop, hstab, hsplits, hK1, hK4, hK5⟩ :=
          ih st avail hA hC (fun m hm => hF m (List.mem_cons_of_mem n hm))
            hPtail
        refine ⟨st', ?_, hstab, hsplits, ?_, ?_, ?_⟩
        · simp only [commSplitLoop, hstep]
          exact hloop
        · intro name
          rw [hK1 name]
          constructor
          · rintro (h | ⟨m, hm, hmn, hmc⟩)
            · exact Or.inl h
            · exact Or.inr ⟨m, List.mem_cons_of_mem n hm, hmn, hmc⟩
          · rintro (h | ⟨m, hm, hmn, hmc⟩)
            · exact Or.inl h
            · rcases List.mem_cons.mp hm with rfl | hm'
              · simp [hc] at hmc
              · exact Or.inr ⟨m, hm', hmn, hmc⟩
        · intro m hm hmc
          rcases List.mem_cons.mp hm with rfl | hm'
          · simp [hc] at hmc
          · exact hK4 m hm' hmc
        · intro m hm hmc
          rcases List.mem_cons.mp hm with rfl | hm'
          · constructor
            · cases hlook : lookupComm st'.comms m.name with
              | none => rfl
              | some c =>
                exfalso
                have hs : (lookupComm st'.comms m.name).isSome = true := by
                  rw [hlook]
                  rfl
                rw [hK1 m.name] at hs
                rcases hs with h | ⟨m2, hm2, hmn2, hmc2⟩
                · rw [hF m (List.mem_cons_self m rest)] at h
                  exact absurd h (by simp)
                · exact (hPhead m2 hm2).1 hmn2.symm
            · intro pc' hpc'
              exfalso
              have hs : (lookupComm st'.comms m.parent).isSome = true := by
                rw [hpc']
                rfl
              rw [hK1 m.parent] at hs
              rcases hs with h | ⟨m2, hm2, hmn2, hmc2⟩
              · rw [hp] at h
                exact absurd h (by simp)
              · exact (hPhead m2 hm2).2 hmn2.symm
          · exact hK5 m hm' hmc
      | some pc =>
        have hstep : commSplitStep contains st n
            = Except.ok ⟨st.comms,
                st.splits ++ [⟨pc, SplitKey.exclude, none⟩], st.fresh⟩ := by
          simp [commSplitStep, hc, hp]
        obtain ⟨st', hloop, hstab, hsplits, hK1, hK4, hK5⟩ :=
          ih ⟨st.comms, st.splits ++ [⟨pc, SplitKey.exclude, none⟩], st.fresh⟩
            avail hA hC (fun m hm => hF m (List.mem_cons_of_mem n hm)) hPtail
        refine ⟨st', ?_, ?_, ?_, ?_, ?_, ?_⟩
        · simp only [commSplitLoop, hstep]
          exact hloop
        · intro name c h
          exact hstab name c h
        · intro e he
          exact hsplits e (List.mem_append_left _ he)
        · intro name
          rw [hK1 name]
          constructor
          · rintro (h | ⟨m, hm, hmn, hmc⟩)
            · exact Or.inl h
            · exact Or.inr ⟨m, List.mem_cons_of_mem n hm, hmn, hmc⟩
          · rintro (h | ⟨m, hm, hmn, hmc⟩)
            · exact Or.inl h
            · rcases List.mem_cons.mp hm with rfl | hm'
              · simp [hc] at hmc
              · exact Or.inr ⟨m, hm', hmn, hmc⟩
        · intro m hm hmc
          rcases List.mem_cons.mp hm with rfl | hm'
          · simp [hc] at hmc
          · exact hK4 m hm' hmc
        · intro m hm hmc
          rcases List.mem_cons.mp hm with rfl | hm'
          · constructor
            · cases hlook : lookupComm st'.comms m.name with
              | none => rfl
              | some c =>
                exfalso
                have hs : (lookupComm st'.comms m.name).isSome = true := by
                  rw [hlook]
                  rfl
                rw [hK1 m.name] at hs
                rcases hs with h | ⟨m2, hm2, hmn2, hmc2⟩
                · rw [hF m (List.mem_cons_self m rest)] at h
                  exact absurd h (by simp)
                · exact (hPhead m2 hm2).1 hmn2.symm
            · intro pc' hpc'
              have hstpar : lookupComm st'.comms m.parent = some pc :=
                hstab m.parent pc hp
              have hpceq : pc' = pc := by
                rw [hpc'] at hstpar
                injection hstpar
              subst hpceq
              apply hsplits
              exact List.mem_append_right _ (List.mem_singleton_self _)
          · exact hK5 m hm' hmc

/-- Claim C3: after a successful MPI-enabled `_init` on a scenario tree
whose interior-stage nodes are listed in stage order (`closureOK`,
distinct names, and no node naming the root — the shape a real scenario
tree guarantees), the worker's node-to-communicator mapping holds the
externally supplied root communicator under the root node's name and
exactly those interior-stage nodes contained in the compressed tree, each
communicator obtained by a join-key split of the parent's communicator;
and every interior-stage node not contained in the compressed tree whose
parent's communicator is present still has an exclusion-key split issued
on the parent's communicator, with no entry stored for it. -/
theorem worker_init_comm_topology (st0 : WorkerState)
    (modules : List String) (serverName : String) (tree : ScenarioTree)
    (workerName : String) (wi : WorkerInit) (senseOf : String → Int)
    (rootComm : Nat) (st1 : WorkerState) (done : InitDone) (cs : CommState)
    (hrun : workerInit st0 modules serverName tree workerName wi senseOf
      (some rootComm) = (st1, Except.ok done))
    (hcs : done.commState = some cs)
    (hroot : ∀ n ∈ tree.interiorNodes, n.name ≠ tree.rootName)
    (hPW : tree.interiorNodes.Pairwise
      (fun a b => a.name ≠ b.name ∧ a.parent ≠ b.name))
    (hclosure : closureOK
      (compressedContainsNode (done.compressed.map Scenario.name))
      [tree.rootName] tree.interiorNodes = true) :
    st1.mpi_comm_tree = cs.comms
    ∧ lookupComm cs.comms tree.rootName = some rootComm
    ∧ (∀ name, (lookupComm cs.comms name).isSome = true ↔
        (name = tree.rootName ∨ ∃ n ∈ tree.interiorNodes, n.name = name ∧
          compressedContainsNode (done.compressed.map Scenario.name) n
            = true))
    ∧ (∀ n ∈ tree.interiorNodes,
        compressedContainsNode (done.compressed.map Scenario.name) n
          = true →
        ∃ pc c, lookupComm cs.comms n.parent = some pc
          ∧ lookupComm cs.comms n.name = some c
          ∧ (⟨pc, SplitKey.join, some c⟩ : SplitEvent) ∈ cs.splits)
    ∧ (∀ n ∈ tree.interiorNodes,
        compressedContainsNode (done.compressed.map Scenario.name) n
          = false →
        lookupComm cs.comms n.name = none
        ∧ ∀ pc, lookupComm cs.comms n.parent = some pc →
            (⟨pc, SplitKey.exclude, none⟩ : SplitEvent) ∈ cs.splits) := by
  obtain ⟨names, hflat, hcomp, hcase⟩ := workerInit_ok_inversion st0 modules
    serverName tree workerName wi senseOf (some rootComm) st1 done hrun
  rcases hcase with ⟨hnone, _, _⟩ | ⟨rc, cs2, hrc, hbc, hcs2, hst1⟩
  · exact absurd hnone (by simp)
  · injection hrc with hrc2
    subst hrc2
    rw [hcs] at hcs2
    injection hcs2 with hcseq
    subst hcseq
    have hA : ∀ a ∈ [tree.rootName],
        (lookupComm [(tree.rootName, rootComm)] a).isSome = true := by
      intro a ha
      rcases List.mem_singleton.mp ha with rfl
      simp [lookupComm]
    have hF : ∀ n ∈ tree.interiorNodes,
        lookupComm [(tree.rootName, rootComm)] n.name = none := by
      intro n hn
      simp [lookupComm, Ne.symm (hroot n hn)]
    obtain ⟨st', hloop, hstab, hsplits, hK1, hK4, hK5⟩ :=
      commSplitLoop_spec
        (compressedContainsNode (done.compressed.map Scenario.name))
        tree.interiorNodes
        ⟨[(tree.rootName, rootComm)], [], rootComm + 1⟩ [tree.rootName]
        hA hclosure hF hPW
    have hst'cs : st' = cs := by
      unfold buildCommTree at hbc
      rw [hloop] at hbc
      injection hbc
    subst hst'cs
    have hrootlook : lookupComm st'.comms tree.rootName = some rootComm := by
      apply hstab
      simp [lookupComm]
    refine ⟨by rw [hst1], hrootlook, ?_, hK4, hK5⟩
    intro name
    rw [hK1 name]
    constructor
    · rintro (h | hex)
      · left
        by_cases hn : tree.rootName = name
        · exact hn.symm
        · simp [lookupComm, hn] at h
      · right
        exact hex
    · rintro (rfl | hex)
      · left
        simp [lookupComm]
      · right
        exact hex

theorem worker_init_comm_topology_witness :
    ({ initAssignments freshWorkerState [] "srv"
        ⟨"R", [⟨"A", "R", ["s1"]⟩, ⟨"B", "R", ["s2"]⟩],
          [⟨"s1", 1⟩, ⟨"s2", 1⟩]⟩ "w"
        with mpi_comm_tree := [("R", 7), ("A", 8)] } :
        WorkerState).mpi_comm_tree
      = (⟨[("R", 7), ("A", 8)],
          [⟨7, SplitKey.join, some 8⟩, ⟨7, SplitKey.exclude, none⟩], 9⟩ :
          CommState).comms
    ∧ lookupComm [("R", 7), ("A", 8)] "R" = some 7
    ∧ (∀ name, (lookupComm [("R", 7), ("A", 8)] name).isSome = true ↔
        (name = "R" ∨
          ∃ n ∈ [(⟨"A", "R", ["s1"]⟩ : TNode), ⟨"B", "R", ["s2"]⟩],
            n.name = name ∧
            compressedContainsNode
              (((⟨[⟨"s1", 1⟩], 1,
                some ⟨[("R", 7), ("A", 8)],
                  [⟨7, SplitKey.join, some 8⟩, ⟨7, SplitKey.exclude, none⟩],
                  9⟩⟩ : InitDone)).compressed.map Scenario.name) n = true))
    ∧ (∀ n ∈ [(⟨"A", "R", ["s1"]⟩ : TNode), ⟨"B", "R", ["s2"]⟩],
        compressedContainsNode
          (((⟨[⟨"s1", 1⟩], 1,
            some ⟨[("R", 7), ("A", 8)],
              [⟨7, SplitKey.join, some 8⟩, ⟨7, SplitKey.exclude, none⟩],
              9⟩⟩ : InitDone)).compressed.map Scenario.name) n = true →
        ∃ pc c, lookupComm [("R", 7), ("A", 8)] n.parent = some pc
          ∧ lookupComm [("R", 7), ("A", 8)] n.name = some c
          ∧ (⟨pc, SplitKey.join, some c⟩ : SplitEvent) ∈
              [⟨7, SplitKey.join, some 8⟩, ⟨7, SplitKey.exclude, none⟩])
    ∧ (∀ n ∈ [(⟨"A", "R", ["s1"]⟩ : TNode), ⟨"B", "R", ["s2"]⟩],
        compressedContainsNode
          (((⟨[⟨"s1", 1⟩], 1,
            some ⟨[("R", 7), ("A", 8)],
              [⟨7, SplitKey.join, some 8⟩, ⟨7, SplitKey.exclude, none⟩],
              9⟩⟩ : InitDone)).compressed.map Scenario.name) n = false →
        lookupComm [("R", 7), ("A", 8)] n.name = none
        ∧ ∀ pc, lookupComm [("R", 7), ("A", 8)] n.parent = some pc →
            (⟨pc, SplitKey.exclude, none⟩ : SplitEvent) ∈
              [⟨7, SplitKey.join, some 8⟩, ⟨7, SplitKey.exclude, none⟩]) :=
  worker_init_comm_topology freshWorkerState [] "srv"
    ⟨"R", [⟨"A", "R", ["s1"]⟩, ⟨"B", "R", ["s2"]⟩], [⟨"s1", 1⟩, ⟨"s2", 1⟩]⟩
    "w" ⟨WorkerInitKind.Scenarios, ["s1"], none⟩ (fun _ => 1) 7
    ({ initAssignments freshWorkerState [] "srv"
        ⟨"R", [⟨"A", "R", ["s1"]⟩, ⟨"B", "R", ["s2"]⟩],
          [⟨"s1", 1⟩, ⟨"s2", 1⟩]⟩ "w"
        with mpi_comm_tree := [("R", 7), ("A", 8)] })
    ⟨[⟨"s1", 1⟩], 1,
      some ⟨[("R", 7), ("A", 8)],
        [⟨7, SplitKey.join, some 8⟩, ⟨7, SplitKey.exclude, none⟩], 9⟩⟩
    ⟨[("R", 7), ("A", 8)],
      [⟨7, SplitKey.join, some 8⟩, ⟨7, SplitKey.exclude, none⟩], 9⟩
    rfl rfl (by decide) (by decide) (by decide)

end Spec2Proof
